import Mathlib

/-!
Shallow embedding of `mailman_rss.py` (bluesabre/mailman-rss), a script that
converts a Mailman web archive into an RSS 2.0 feed.  Python strings are
modelled as Lean `String`s manipulated through their character lists, Python
integers as `Int`/`Nat` (they are unbounded), fallible operations as
`Except`/`Option`, and the print stream of `printrss` as a `List String`
(one element per `print` call).  External library calls (urllib, gzip, bs4,
mailbox, email) are modelled at their narrow call sites, as documented at
each definition.
-/

namespace MailmanRss

/-- Python whitespace class (`str.strip`, regex `\s`) in its ASCII range,
which covers every input the source manipulates. -/
def isPySpace (c : Char) : Bool :=
  c == ' ' || c == '\t' || c == '\n' || c == '\r' || c == '\x0b' || c == '\x0c'

/-- Python `s.startswith(p)` on character lists. -/
def startsWithL (p s : List Char) : Bool :=
  match p with
  | [] => true
  | ph :: pt =>
    match s with
    | [] => false
    | sh :: st => ph == sh && startsWithL pt st

/-- Python `str.strip()`: drop leading and trailing whitespace. -/
def trimChars (s : List Char) : List Char :=
  ((s.dropWhile isPySpace).reverse.dropWhile isPySpace).reverse

/-- `str.strip()` packaged on `String`. -/
def trimS (s : String) : String := ⟨trimChars s.data⟩

/-- Python `guid.strip("<>")` (mailman_rss.py line 176): drop leading and
trailing characters drawn from the set `{<, >}`. -/
def stripAngles (s : String) : String :=
  ⟨((s.data.dropWhile fun c => c == '<' || c == '>').reverse.dropWhile
      fun c => c == '<' || c == '>').reverse⟩

/-- One character of Python 2 `cgi.escape(s)` (called without `quote=True`
everywhere in the source): `&` becomes `&amp;`, `<` becomes `&lt;`, `>`
becomes `&gt;`, and every other character — including the double quote — is
left unchanged.  The source's chained `str.replace` calls (ampersand first)
coincide with this character-wise map. -/
def cgiEscapeChar (c : Char) : List Char :=
  if c == '&' then "&amp;".data
  else if c == '<' then "&lt;".data
  else if c == '>' then "&gt;".data
  else [c]

/-- `cgi.escape` on a whole string. -/
def cgiEscape (s : String) : String := ⟨(s.data.map cgiEscapeChar).flatten⟩

/-- Python `author.replace(" at ", "@")` (line 158): left-to-right,
non-overlapping replacement of every occurrence. -/
def deobfuscateAt : List Char → List Char
  | ' ' :: 'a' :: 't' :: ' ' :: rest => '@' :: deobfuscateAt rest
  | c :: rest => c :: deobfuscateAt rest
  | [] => []

/-- Split a character list at every newline, the line decomposition behind
`io.StringIO(part).readlines()` in `get_part_field` (trailing newlines are
dropped from each line; `get_part_field` strips its value anyway). -/
def splitLinesAux : List Char → List (List Char)
  | [] => [[]]
  | '\n' :: rest => [] :: splitLinesAux rest
  | c :: rest =>
    match splitLinesAux rest with
    | [] => [[c]]
    | l :: ls => (c :: l) :: ls

/-- Python `line.split(":", 1)[1]`: the remainder of the line after the first
colon, `none` when the line holds no colon (in which case the source's
`parts[1]` raises `IndexError`; no claim exercises that line shape). -/
def afterFirstColon : List Char → Option (List Char)
  | [] => none
  | ':' :: rest => some rest
  | _ :: rest => afterFirstColon rest

/-- Loop body of `get_part_field` (lines 117-123): first line whose
lowercased form starts with `name`; value is the remainder after the first
colon, stripped. -/
def getPartFieldAux (name : List Char) : List (List Char) → Option String
  | [] => none
  | line :: rest =>
    if startsWithL name (line.map Char.toLower) then
      match afterFirstColon line with
      | some v => some (trimS ⟨v⟩)
      | none => none
    else getPartFieldAux name rest

/-- `get_part_field(part, name)` from the source (lines 117-123). -/
def get_part_field (part name : String) : Option String :=
  getPartFieldAux name.data (splitLinesAux part.data)

/-- Python `pat in s` substring test (naive scan). -/
def listContainsAux (pat : List Char) : List Char → Bool
  | [] => pat.isEmpty
  | c :: rest => startsWithL pat (c :: rest) || listContainsAux pat rest

/-- Python `pat in s` on `String`. -/
def strContains (s pat : String) : Bool := listContainsAux pat.data s.data

/-- Characters admissible in a URL scheme for `urlparse` (letters, digits,
`+`, `-`, `.`). -/
def isSchemeChar (c : Char) : Bool := c.isAlphanum || c == '+' || c == '-' || c == '.'

/-- Strip a leading `scheme:` from a URL exactly as `urlsplit` does: a colon
must be present with a non-empty run of scheme characters before it. -/
def splitScheme (s : List Char) : List Char :=
  let pre := s.takeWhile fun c => c != ':'
  if pre.length < s.length && !pre.isEmpty && pre.all isSchemeChar then
    s.drop (pre.length + 1)
  else s

/-- `urlparse(url).netloc`: after stripping any scheme, a network location is
present only when the remainder starts with `//`, and extends to the first
`/`, `?` or `#`.  (Models the stdlib `urlparse`, an external collaborator of
the source, at exactly the precision line 202's `if o.netloc:` needs.) -/
def urlNetloc (url : String) : String :=
  match splitScheme url.data with
  | '/' :: '/' :: r => ⟨r.takeWhile fun c => c != '/' && c != '?' && c != '#'⟩
  | _ => ""

/-- Python truthiness of an optional string: `None` and `""` are falsy. -/
def truthy : Option String → Bool
  | none => false
  | some s => !s.isEmpty

/-- Unwrap an optional string where the source has already checked
truthiness. -/
def getS (o : Option String) : String := o.getD ""

/-- The literal marker line 193 searches for in a post-delimiter segment. -/
def scrubMarker : String := "A non-text attachment was scrubbed"

/-- One RSS enclosure, as emitted by line 203. -/
structure Enclosure where
  url : String
  length : String
  mimeType : String
deriving DecidableEq

/-- The enclosure decision for one post-delimiter segment (lines 191-204):
skip unless the segment contains `scrubMarker`; extract the type, size and
url fields; emit only when all three are truthy and the url has a non-empty
network location. -/
def enclosureFor (part : String) : Option Enclosure :=
  if strContains part scrubMarker then
    let mimeType := get_part_field part "type"
    let size := get_part_field part "size"
    let url := get_part_field part "url"
    if truthy mimeType && truthy size && truthy url then
      if (urlNetloc (getS url)).isEmpty then none
      else some ⟨getS url, getS size, getS mimeType⟩
    else none
  else none

/-- The `<enclosure .../>` line printed at lines 203-204; note the three
values are interpolated verbatim, with no escaping. -/
def enclosureLine (e : Enclosure) : String :=
  "<enclosure url=\"" ++ e.url ++ "\" length=\"" ++ e.length ++ "\" type=\"" ++
    e.mimeType ++ "\" />"

/-- Python regex `\w` restricted to ASCII, which covers the subjects the
claims exercise: letters, digits and underscore. -/
def isWordChar (c : Char) : Bool := c.isAlphanum || c == '_'

/-- Value of a decimal digit string, Python `int(...)` on `\d+`. -/
def digitsToNat (ds : List Char) : Nat :=
  ds.foldl (fun acc c => acc * 10 + (c.toNat - '0'.toNat)) 0

/-- `re.match(r'\[\w+ (\d+)\].*', title)` from line 167, returning the
captured integer.  Because `\w+` cannot match the mandatory space and `\d+`
cannot match the closing bracket, the regex engine's greedy matching
coincides with this maximal-munch scan. -/
def matchTag (s : List Char) : Option Nat :=
  match s with
  | '[' :: rest =>
    let ws := rest.takeWhile isWordChar
    if ws.isEmpty then none
    else
      match rest.drop ws.length with
      | ' ' :: rest2 =>
        let ds := rest2.takeWhile Char.isDigit
        if ds.isEmpty then none
        else
          match rest2.drop ds.length with
          | ']' :: _ => some (digitsToNat ds)
          | _ => none
      | _ => none
  | _ => none

/-- Full month names as produced by `%B` under the C locale. -/
def monthNames : List String :=
  ["January", "February", "March", "April", "May", "June",
   "July", "August", "September", "October", "November", "December"]

/-- The year/month fields of the struct time returned by
`email.utils.parsedate` that `time.strftime("%Y-%B", date)` consumes. -/
structure ParsedDate where
  year : Nat
  month : Nat
deriving DecidableEq

/-- `time.strftime("%Y-%B", date)` (line 171): the four-digit year, a
hyphen, then the full month name. -/
def strftimeYB (d : ParsedDate) : String :=
  toString d.year ++ "-" ++ monthNames.getD (d.month - 1) ""

/-- Left-pad with zeros to the given width. -/
def zeroPad (w : Nat) (s : String) : String :=
  (⟨List.replicate (w - s.length) '0'⟩ : String) ++ s

/-- Python `"{:06d}".format(n)`: sign-aware zero padding to width 6. -/
def format06 (n : Int) : String :=
  if n < 0 then "-" ++ zeroPad 5 (toString n.natAbs)
  else zeroPad 6 (toString n.toNat)

/-- The `<link>` line printed at lines 170-173 when permalink reconstruction
succeeds; the archive URL and reconstructed path are interpolated with
`str.format`, not escaped. -/
def itemLinkLine (archiveUrl : String) (d : ParsedDate) (n : Nat) : String :=
  "<link>" ++ archiveUrl ++ strftimeYB d ++ "/" ++ format06 ((n : Int) - 1) ++
    ".html</link>"

/-- Try to match the delimiter regex `^-+\s+next part\s+-+$` (line 185,
`re.MULTILINE`) at a line start: one or more dashes, whitespace (which may
span newlines), the literal `next part`, whitespace, one or more dashes,
then end of line.  Returns the unconsumed remainder (empty, or starting at
the newline the final `$` matched before).  Each adjacent pair of regex
pieces draws from disjoint character sets, so greedy matching is exactly
this maximal-munch scan. -/
def matchDelim (s : List Char) : Option (List Char) :=
  let d1 := s.takeWhile fun c => c == '-'
  if d1.isEmpty then none
  else
    let s1 := s.drop d1.length
    let w1 := s1.takeWhile isPySpace
    if w1.isEmpty then none
    else
      let s2 := s1.drop w1.length
      if startsWithL "next part".data s2 then
        let s3 := s2.drop 9
        let w2 := s3.takeWhile isPySpace
        if w2.isEmpty then none
        else
          let s4 := s3.drop w2.length
          let d2 := s4.takeWhile fun c => c == '-'
          if d2.isEmpty then none
          else
            match s4.drop d2.length with
            | [] => some []
            | '\n' :: r => some ('\n' :: r)
            | _ => none
      else none

/-- Scanner behind `re.split` on the delimiter regex: walk the body, trying
the delimiter at every line start, collecting the segments between matches.
`cur` is the current segment reversed; the fuel is an upper bound on the
number of steps (each step consumes at least one character). -/
def splitPartsAux : Nat → Bool → List Char → List Char → List String
  | 0, _, cur, s => [⟨cur.reverse ++ s⟩]
  | fuel + 1, atStart, cur, s =>
    if atStart then
      match matchDelim s with
      | some rest => (⟨cur.reverse⟩ : String) :: splitPartsAux fuel false [] rest
      | none =>
        match s with
        | [] => [⟨cur.reverse⟩]
        | c :: rest => splitPartsAux fuel (c == '\n') (c :: cur) rest
    else
      match s with
      | [] => [⟨cur.reverse⟩]
      | c :: rest => splitPartsAux fuel (c == '\n') (c :: cur) rest

/-- `re.split(re.compile("^-+\s+next part\s+-+$", re.MULTILINE), body)`
(lines 185-186). -/
def splitParts (body : String) : List String :=
  splitPartsAux (body.data.length + 1) true [] body.data

/-- `parts[0].replace("\n", "<br/>")` (line 188). -/
def brify : List Char → List Char
  | [] => []
  | '\n' :: rest => "<br/>".data ++ brify rest
  | c :: rest => c :: brify rest

/-- One decoded message as `printrss` consumes it: the optional `date`,
`from`, `subject` and `message-id` headers (absent header ⇒ `none`), the
multipart flag, and the two payload views `mail.get_payload(0)` /
`mail.get_payload()` of which lines 180-183 pick one.  Header extraction and
MIME payload access are the `mailbox`/`email` libraries, external to the
source. -/
structure Mail where
  date : Option String
  author : Option String
  subject : Option String
  messageId : Option String
  multipart : Bool
  payload0 : String
  payloadWhole : String

/-- The single channel-level `<pubDate>` printed for the first message
(lines 148-154): the escaped raw date header when truthy, else the escaped
`formatdate()` build timestamp `now`. -/
def chanPubDateLine (now : String) (m : Mail) : String :=
  if truthy m.date then "<pubDate>" ++ cgiEscape (getS m.date) ++ "</pubDate>"
  else "<pubDate>" ++ cgiEscape now ++ "</pubDate>"

/-- The `<item>` block printed for one message (lines 156-206).  `pd` is
`email.utils.parsedate` (an external library function): the permalink branch
requires both a truthy date header whose parse succeeded and a subject
matching the bracketed-tag regex.  `make_header(decode_header(...))` on
line 166 is modelled as the identity, faithful for subjects containing no
MIME encoded-words (none of the claims involve encoded-words). -/
def renderItem (pd : String → Option ParsedDate) (archiveUrl : String)
    (m : Mail) : List String :=
  let authorLines := if truthy m.author then
      ["<author>" ++ cgiEscape ⟨deobfuscateAt (getS m.author).data⟩ ++ "</author>"]
    else []
  let dateLines := if truthy m.date then
      ["<pubDate>" ++ cgiEscape (getS m.date) ++ "</pubDate>"]
    else []
  let parsed := if truthy m.date then pd (getS m.date) else none
  let subjectLines := if truthy m.subject then
      let title := cgiEscape (getS m.subject)
      ("<title>" ++ title ++ "</title>") ::
        (match parsed, matchTag title.data with
         | some d, some n => [itemLinkLine archiveUrl d n]
         | _, _ => [])
    else []
  let guidLines := if truthy m.messageId then
      ["<guid isPermaLink=\"false\">" ++ cgiEscape (stripAngles (getS m.messageId)) ++
        "</guid>"]
    else []
  let body := if m.multipart then m.payload0 else m.payloadWhole
  let parts := (splitParts body).map trimS
  let descLine := "<description><![CDATA[" ++ (⟨brify (parts.headD "").data⟩ : String) ++
    "]]></description>"
  let enclosureLines := (parts.drop 1).filterMap fun p => (enclosureFor p).map enclosureLine
  "<item>" :: (authorLines ++ dateLines ++ subjectLines ++ guidLines ++
    [descLine] ++ enclosureLines ++ ["</item>"])

/-- The message loop of `printrss` (lines 140-206): `pubdateRendered` is the
`pubdate_rendered` flag, so the channel `<pubDate>` is printed exactly once,
before the first item, and never touched again. -/
def renderMails (pd : String → Option ParsedDate) (archiveUrl now : String) :
    Bool → List Mail → List String
  | _, [] => []
  | pubdateRendered, m :: ms =>
    (if pubdateRendered then [] else [chanPubDateLine now m]) ++
      renderItem pd archiveUrl m ++ renderMails pd archiveUrl now true ms

/-- The archive object as `printrss` sees it: the normalized base URL and
the (already fetched) title.  `title = none` models a `get_title` result
that is `None`/empty (see `get_title` for the crashing case). -/
structure Archive where
  archive_url : String
  title : Option String

/-- The optional channel `<title>`/`<description>` pair (lines 132-135):
omitted entirely when the archive title is falsy. -/
def channelTitleLines (title : Option String) : List String :=
  if truthy title then
    ["<title>" ++ cgiEscape (getS title) ++ "</title>",
     "<description>" ++ cgiEscape (getS title) ++ "</description>"]
  else []

/-- `printrss(archive, mails)` (lines 126-210) as its sequence of printed
lines; `now` stands for the `formatdate()` build timestamp. -/
def printrss (pd : String → Option ParsedDate) (archive : Archive)
    (now : String) (mails : List Mail) : List String :=
  ["<?xml version=\"1.0\" encoding=\"UTF-8\" ?>", "<rss version=\"2.0\">",
   "<channel>", "<language>" ++ cgiEscape "ja-JP" ++ "</language>"] ++
    channelTitleLines archive.title ++
    ["<link>" ++ cgiEscape archive.archive_url ++ "</link>"] ++
    renderMails pd archive.archive_url now false mails ++
    ["</channel>", "</rss>"]

/-- Accumulating loop of `main` (lines 229-247) over the already-loaded
months: append each month's messages reversed, and break as soon as the
accumulator's length reaches `count`.  `months` carries each month's
messages in in-month (container) order. -/
def selectAcc {α : Type} (count : Int) : List α → List (List α) → List α
  | acc, [] => acc
  | acc, month :: rest =>
    let acc2 := acc ++ month.reverse
    if count ≤ (acc2.length : Int) then acc2
    else selectAcc count acc2 rest

/-- Python `xs[:n]` for an arbitrary integer `n`: a non-negative stop takes
a prefix, a negative stop drops `|n|` elements from the end (clamped at 0). -/
def pySliceTo {α : Type} (xs : List α) (n : Int) : List α :=
  if 0 ≤ n then xs.take n.toNat
  else xs.take ((xs.length : Int) + n).toNat

/-- The message-selection step of `main` (lines 227-251): run the
accumulating loop, then trim with `mails[:count]` when the accumulator
exceeds `count`. -/
def select {α : Type} (months : List (List α)) (count : Int) : List α :=
  let mails := selectAcc count [] months
  if count < (mails.length : Int) then pySliceTo mails count else mails

/-- How many months the loop of lines 229-247 opens (`get_month` calls)
before breaking: one per iteration, stopping once the accumulated message
count reaches `count`.  `accLen` is the accumulator length so far. -/
def monthsLoaded {α : Type} (count : Int) : Nat → List (List α) → Nat
  | _, [] => 0
  | accLen, month :: rest =>
    let len2 := accLen + month.length
    if count ≤ (len2 : Int) then 1
    else 1 + monthsLoaded count len2 rest

/-- A restatement of the accumulating loop without the accumulator, used to
reason about `selectAcc`. -/
def selectCore {α : Type} : List (List α) → Int → List α
  | [], _ => []
  | month :: rest, count =>
    if count ≤ (month.length : Int) then month.reverse
    else month.reverse ++ selectCore rest (count - month.length)

/-- Total number of messages across the month archives. -/
def totalMessages {α : Type} (months : List (List α)) : Nat :=
  (months.map List.length).sum

/-- The two operations of `get_month` (lines 86-99) that can raise after the
temporary file has been created: `gzip.GzipFile(...).read()` and
`mailbox.mbox(tmpfile)`.  `none` models the operation raising. -/
structure MonthFetch where
  gunzip : Option (List Nat)
  openMbox : Option Nat

/-- `MailmanArchive.get_month` (lines 86-99) reduced to its temp-file
lifecycle: `tempfile.mkstemp()` creates the staging file, the decompressed
bytes are written to it, `mailbox.mbox` opens it, and only then does
`os.remove(tmpfile)` run — there is no `try`/`finally`, so an exception
raised by decompression or by the mbox constructor propagates with the file
still on disk.  The result pairs the Python outcome (`error` = uncaught
exception) with whether the temporary file still exists on termination. -/
def get_month (env : MonthFetch) : Except Unit Nat × Bool :=
  match env.gunzip with
  | none => (Except.error (), true)
  | some _ =>
    match env.openMbox with
    | none => (Except.error (), true)
    | some mb => (Except.ok mb, false)

/-- A `<title>` element as BeautifulSoup exposes it: `.string` is `None`
for an empty element. -/
structure TitleTag where
  string : Option String

/-- A `<head>` element: `.title` is `None` when no title element exists. -/
structure HeadTag where
  title : Option TitleTag

/-- An `<html>` element: `.head` is `None` when no head element exists. -/
structure HtmlTag where
  head : Option HeadTag

/-- The parsed index document: `.html` is `None` when no html element
exists. -/
structure Soup where
  html : Option HtmlTag

/-- `MailmanArchive.get_title` (lines 83-84):
`self._soup.html.head.title.string`.  Each missing element in the chain
makes the next attribute access happen on `None`, which raises
`AttributeError` (`Except.error`); only a present `<title>` element yields
its (possibly absent) string. -/
def get_title (s : Soup) : Except Unit (Option String) :=
  match s.html with
  | none => Except.error ()
  | some h =>
    match h.head with
    | none => Except.error ()
    | some hd =>
      match hd.title with
      | none => Except.error ()
      | some t => Except.ok t.string

/-- Python `s[-1]`: the last character, when it exists. -/
def lastChar? (s : String) : Option Char := s.data.reverse.head?

/-- The URL normalization of `MailmanArchive.__init__` (lines 73-78):
`archive_url[-1]` raises `IndexError` on the empty string; otherwise a
trailing slash is appended when missing. -/
def normalizeArchiveUrl (url : String) : Except Unit String :=
  match lastChar? url with
  | none => Except.error ()
  | some c => if c != '/' then Except.ok (url ++ "/") else Except.ok url

/-- The URLs `__init__` fetches (line 79): the normalized URL on success,
nothing when normalization already raised. -/
def initFetchTargets (url : String) : List String :=
  match normalizeArchiveUrl url with
  | Except.error _ => []
  | Except.ok u => [u]

/-- A parse oracle that always fails, for concrete evaluations. -/
def pdNone : String → Option ParsedDate := fun _ => none

/-- A parse oracle returning April 2020, the date of the claims' permalink
example. -/
def pdApril2020 : String → Option ParsedDate := fun _ => some ⟨2020, 4⟩

/-- Line test: does the printed line start with `<link>`? -/
def isLinkLine (l : String) : Bool := startsWithL "<link>".data l.data

/-- Line test: does the printed line start with `<pubDate>`? -/
def isPubDateLine (l : String) : Bool := startsWithL "<pubDate>".data l.data

theorem str_data_append (a b : String) : (a ++ b).data = a.data ++ b.data := rfl

theorem lt_not_mem_cgiEscapeChar (c : Char) : '<' ∉ cgiEscapeChar c := by
  unfold cgiEscapeChar
  split_ifs with h1 h2 h3
  · decide
  · decide
  · decide
  · intro h
    rw [List.mem_singleton] at h
    subst h
    exact h2 rfl

theorem gt_not_mem_cgiEscapeChar (c : Char) : '>' ∉ cgiEscapeChar c := by
  unfold cgiEscapeChar
  split_ifs with h1 h2 h3
  · decide
  · decide
  · decide
  · intro h
    rw [List.mem_singleton] at h
    subst h
    exact h3 rfl

/-- C8: the claim demands that every run of the month loader delete its
temporary staging file on all exit paths, including decompression and
container-opening failures.  The code has no `try`/`finally`: when
decompression (or the mbox constructor) raises, the exception propagates
before `os.remove(tmpfile)` runs and the temporary file is left on disk;
only the fully successful path removes it. -/
theorem get_month_tmpfile_leak :
    get_month ⟨none, some 0⟩ = (Except.error (), true)
      ∧ get_month ⟨some [0], none⟩ = (Except.error (), true)
      ∧ get_month ⟨some [0], some 7⟩ = (Except.ok 7, false) :=
  ⟨rfl, rfl, rfl⟩

/-- C9 counterexample: a fetched document with `<html>` and `<head>` but no
`<title>` element makes `get_title` raise (`.string` is read off `None`,
an `AttributeError`), rather than returning an empty/absent value as the
claim states. -/
theorem get_title_missing_title_raises :
    get_title ⟨some ⟨some ⟨none⟩⟩⟩ = Except.error () := rfl

/-- C9 amended: `get_title` returns the title text (possibly absent, for an
empty `<title>` element) when the `html`/`head`/`title` chain is present,
and raises an error whenever any element of the chain is missing; the
renderer tolerates an absent or empty title by omitting the channel title
and description lines. -/
theorem get_title_behavior :
    (∀ ts : Option String, get_title ⟨some ⟨some ⟨some ⟨ts⟩⟩⟩⟩ = Except.ok ts)
      ∧ get_title ⟨none⟩ = Except.error ()
      ∧ get_title ⟨some ⟨none⟩⟩ = Except.error ()
      ∧ get_title ⟨some ⟨some ⟨none⟩⟩⟩ = Except.error ()
      ∧ channelTitleLines none = []
      ∧ channelTitleLines (some "") = [] :=
  ⟨fun _ => rfl, rfl, rfl, rfl, rfl, rfl⟩

/-- C10: archive construction is total exactly for non-empty base URLs: a
non-empty URL is normalized to end in `/` (unchanged when it already does,
else with `/` appended), while the empty string makes `archive_url[-1]`
raise `IndexError` before any fetch is attempted. -/
theorem archive_url_normalization :
    (∀ url : String, url ≠ "" →
        ∃ u, normalizeArchiveUrl url = Except.ok u ∧ lastChar? u = some '/'
          ∧ (lastChar? url = some '/' → u = url)
          ∧ (lastChar? url ≠ some '/' → u = url ++ "/"))
      ∧ normalizeArchiveUrl "" = Except.error ()
      ∧ initFetchTargets "" = [] := by
  refine ⟨?_, rfl, rfl⟩
  intro url hne
  rcases hL : lastChar? url with _ | c
  · exfalso
    apply hne
    unfold lastChar? at hL
    rw [List.head?_eq_none_iff, List.reverse_eq_nil_iff] at hL
    obtain ⟨d⟩ := url
    exact congrArg String.mk hL
  · by_cases hc : c = '/'
    · subst hc
      refine ⟨url, ?_, hL, fun _ => rfl, fun h => absurd rfl h⟩
      simp [normalizeArchiveUrl, hL]
    · refine ⟨url ++ "/", ?_, ?_, ?_, fun _ => rfl⟩
      · simp [normalizeArchiveUrl, hL, hc]
      · unfold lastChar?
        rw [str_data_append]
        simp
      · intro h
        exact absurd (Option.some.inj h) hc

/-- Witness for the C10 theorem at the concrete input `"http://x"`. -/
theorem archive_url_normalization_witness :
    ("http://x" : String) ≠ ""
      ∧ ∃ u, normalizeArchiveUrl "http://x" = Except.ok u ∧ lastChar? u = some '/'
          ∧ (lastChar? "http://x" = some '/' → u = "http://x")
          ∧ (lastChar? "http://x" ≠ some '/' → u = "http://x" ++ "/") :=
  ⟨by decide, archive_url_normalization.1 "http://x" (by decide)⟩

/-- C7: the channel-level pubDate is printed exactly once, before the first
item, computed from the first message's date header (escaped raw text) or
from the build timestamp when that header is absent/empty; once the
`pubdate_rendered` flag is set, the remaining messages contribute only
their items, so the choice is never overwritten. -/
theorem channel_pubdate_once (pd : String → Option ParsedDate)
    (url now : String) (m : Mail) (ms : List Mail) :
    renderMails pd url now false (m :: ms)
        = chanPubDateLine now m :: (renderItem pd url m ++ renderMails pd url now true ms)
      ∧ (∀ ms' : List Mail,
          renderMails pd url now true ms' = (ms'.map (renderItem pd url)).flatten)
      ∧ chanPubDateLine now m
          = (if truthy m.date then "<pubDate>" ++ cgiEscape (getS m.date) ++ "</pubDate>"
             else "<pubDate>" ++ cgiEscape now ++ "</pubDate>") := by
  refine ⟨rfl, ?_, rfl⟩
  intro ms'
  induction ms' with
  | nil => rfl
  | cons a l ih => simp [renderMails, ih]

/-- C6 counterexample: a segment containing the scrubbed-attachment marker
in which the line-oriented scan finds all three labels (`Type:` with an
empty value, `Size:`, `Url:` with an absolute URL) yields no enclosure,
because the source additionally requires each extracted value to be truthy
(non-empty): `if mime_type and size and url:` fails on the empty type. -/
theorem enclosure_empty_value_dropped :
    enclosureFor "A non-text attachment was scrubbed\nType:\nSize: 12345 bytes\nUrl: http://example.org/x.png" = none
      ∧ (get_part_field "A non-text attachment was scrubbed\nType:\nSize: 12345 bytes\nUrl: http://example.org/x.png" "type").isSome = true
      ∧ (get_part_field "A non-text attachment was scrubbed\nType:\nSize: 12345 bytes\nUrl: http://example.org/x.png" "size").isSome = true
      ∧ (get_part_field "A non-text attachment was scrubbed\nType:\nSize: 12345 bytes\nUrl: http://example.org/x.png" "url").isSome = true
      ∧ strContains "A non-text attachment was scrubbed\nType:\nSize: 12345 bytes\nUrl: http://example.org/x.png" scrubMarker = true
      ∧ urlNetloc "http://example.org/x.png" = "example.org" := by
  decide

/-- C6 amended: an enclosure is emitted for a post-delimiter segment iff the
segment contains the scrubbed-attachment marker, the line-oriented scan
finds all three labels with non-empty trimmed values, and the url value has
a non-empty network location; the claim's two concrete examples behave as
stated (absolute URL yields the single enclosure, relative URL yields
none). -/
theorem enclosure_condition :
    (∀ part : String,
        (enclosureFor part).isSome
          = (strContains part scrubMarker && truthy (get_part_field part "type")
              && truthy (get_part_field part "size") && truthy (get_part_field part "url")
              && !(urlNetloc (getS (get_part_field part "url"))).isEmpty))
      ∧ enclosureFor "A non-text attachment was scrubbed...\nName: x.png\nType: image/png\nSize: 12345 bytes\nUrl: http://example.org/x.png"
          = some ⟨"http://example.org/x.png", "12345 bytes", "image/png"⟩
      ∧ enclosureFor "A non-text attachment was scrubbed...\nName: x.png\nType: image/png\nSize: 12345 bytes\nUrl: ../x.png" = none := by
  refine ⟨?_, by decide, by decide⟩
  intro part
  cases h1 : strContains part scrubMarker <;>
    cases h2 : truthy (get_part_field part "type") <;>
      cases h3 : truthy (get_part_field part "size") <;>
        cases h4 : truthy (get_part_field part "url") <;>
          cases h5 : (urlNetloc (getS (get_part_field part "url"))).isEmpty <;>
            simp [enclosureFor, h1, h2, h3, h4, h5]

theorem isLinkLine_item : isLinkLine "<item>" = false := rfl

theorem isLinkLine_item_close : isLinkLine "</item>" = false := rfl

theorem isLinkLine_author (s : String) :
    isLinkLine ("<author>" ++ s ++ "</author>") = false := rfl

theorem isLinkLine_pubdate (s : String) :
    isLinkLine ("<pubDate>" ++ s ++ "</pubDate>") = false := rfl

theorem isLinkLine_title (s : String) :
    isLinkLine ("<title>" ++ s ++ "</title>") = false := rfl

theorem isLinkLine_guid (s : String) :
    isLinkLine ("<guid isPermaLink=\"false\">" ++ s ++ "</guid>") = false := rfl

theorem isLinkLine_desc (s : String) :
    isLinkLine ("<description><![CDATA[" ++ s ++ "]]></description>") = false := rfl

theorem isLinkLine_enclosure (e : Enclosure) : isLinkLine (enclosureLine e) = false := rfl

theorem isLinkLine_itemLinkLine (u : String) (d : ParsedDate) (n : Nat) :
    isLinkLine (itemLinkLine u d n) = true := rfl

theorem isPubDateLine_item : isPubDateLine "<item>" = false := rfl

theorem isPubDateLine_item_close : isPubDateLine "</item>" = false := rfl

theorem isPubDateLine_author (s : String) :
    isPubDateLine ("<author>" ++ s ++ "</author>") = false := rfl

theorem isPubDateLine_pubdate (s : String) :
    isPubDateLine ("<pubDate>" ++ s ++ "</pubDate>") = true := rfl

theorem isPubDateLine_title (s : String) :
    isPubDateLine ("<title>" ++ s ++ "</title>") = false := rfl

theorem isPubDateLine_guid (s : String) :
    isPubDateLine ("<guid isPermaLink=\"false\">" ++ s ++ "</guid>") = false := rfl

theorem isPubDateLine_desc (s : String) :
    isPubDateLine ("<description><![CDATA[" ++ s ++ "]]></description>") = false := rfl

theorem isPubDateLine_enclosure (e : Enclosure) :
    isPubDateLine (enclosureLine e) = false := rfl

theorem isPubDateLine_itemLinkLine (u : String) (d : ParsedDate) (n : Nat) :
    isPubDateLine (itemLinkLine u d n) = false := rfl

theorem filter_enclosures_eq_nil (q : String → Bool)
    (hq : ∀ e : Enclosure, q (enclosureLine e) = false) (parts : List String) :
    (parts.filterMap fun p => (enclosureFor p).map enclosureLine).filter q = [] := by
  rw [List.filter_eq_nil_iff]
  intro a ha
  obtain ⟨p, hp, hfp⟩ := List.mem_filterMap.mp ha
  obtain ⟨e, he, hae⟩ := Option.map_eq_some'.mp hfp
  rw [← hae]
  simp [hq]

theorem filter_isLinkLine_renderItem (pd : String → Option ParsedDate)
    (base : String) (m : Mail) :
    (renderItem pd base m).filter isLinkLine
      = (if truthy m.subject then
           (match (if truthy m.date then pd (getS m.date) else none),
                  matchTag (cgiEscape (getS m.subject)).data with
            | some d, some n => [itemLinkLine base d n]
            | _, _ => [])
         else []) := by
  cases hA : truthy m.author <;> cases hD : truthy m.date <;>
    cases hS : truthy m.subject <;> cases hG : truthy m.messageId <;>
      cases hp : pd (getS m.date) <;>
        cases hmt : matchTag (cgiEscape (getS m.subject)).data <;>
          simp [renderItem, hA, hD, hS, hG, hp, hmt, List.filter_cons,
            List.filter_append, List.filter_nil, isLinkLine_item,
            isLinkLine_item_close, isLinkLine_author, isLinkLine_pubdate,
            isLinkLine_title, isLinkLine_guid, isLinkLine_desc,
            isLinkLine_itemLinkLine,
            filter_enclosures_eq_nil isLinkLine isLinkLine_enclosure]

theorem filter_isPubDateLine_renderItem (pd : String → Option ParsedDate)
    (base : String) (m : Mail) :
    (renderItem pd base m).filter isPubDateLine
      = (if truthy m.date then
           ["<pubDate>" ++ cgiEscape (getS m.date) ++ "</pubDate>"]
         else []) := by
  cases hA : truthy m.author <;> cases hD : truthy m.date <;>
    cases hS : truthy m.subject <;> cases hG : truthy m.messageId <;>
      cases hp : pd (getS m.date) <;>
        cases hmt : matchTag (cgiEscape (getS m.subject)).data <;>
          simp [renderItem, hA, hD, hS, hG, hp, hmt, List.filter_cons,
            List.filter_append, List.filter_nil, isPubDateLine_item,
            isPubDateLine_item_close, isPubDateLine_author, isPubDateLine_pubdate,
            isPubDateLine_title, isPubDateLine_guid, isPubDateLine_desc,
            isPubDateLine_itemLinkLine,
            filter_enclosures_eq_nil isPubDateLine isPubDateLine_enclosure]

/-- C3 counterexample: the claim says every occurrence of a character from
`{&, <, >, "}` in a title/author/link value appears escaped in the final
XML.  The author value `a"b` is rendered as the literal line
`<author>a"b</author>`: the double quote survives unescaped (and no
`&quot;` entity appears), because `cgi.escape` is called without
`quote=True`. -/
theorem quote_not_escaped_in_output :
    "<author>a\"b</author>"
        ∈ renderItem pdNone "http://base/" ⟨none, some "a\"b", none, none, false, "", ""⟩
      ∧ '\"' ∈ "<author>a\"b</author>".data
      ∧ strContains "<author>a\"b</author>" "&quot;" = false := by
  decide

/-- C3 amended: values passed through `cgi.escape` (channel title,
description and link, item author, pubDates, the subject before decoding,
the guid) have `&`, `<` and `>` escaped — the escaped text never contains a
raw `<` or `>` — but the double quote is NOT escaped (`cgi.escape` is
called without `quote=True`) and survives verbatim; the reconstructed item
link and the enclosure url/length/type attributes are interpolated with no
escaping at all; the description is emitted unescaped inside a CDATA
block. -/
theorem escaping_behavior :
    (∀ s : String, '<' ∉ (cgiEscape s).data ∧ '>' ∉ (cgiEscape s).data)
      ∧ cgiEscape "&" = "&amp;"
      ∧ cgiEscape "<" = "&lt;"
      ∧ cgiEscape ">" = "&gt;"
      ∧ cgiEscape "\"" = "\""
      ∧ (∀ s : String, '\"' ∈ s.data → '\"' ∈ (cgiEscape s).data)
      ∧ (∀ e : Enclosure, enclosureLine e
          = "<enclosure url=\"" ++ e.url ++ "\" length=\"" ++ e.length ++ "\" type=\""
              ++ e.mimeType ++ "\" />") := by
  refine ⟨?_, by decide, by decide, by decide, by decide, ?_, fun _ => rfl⟩
  · intro s
    constructor
    · intro h
      obtain ⟨l, hl, hmem⟩ := List.mem_flatten.mp h
      obtain ⟨c, _, rfl⟩ := List.mem_map.mp hl
      exact lt_not_mem_cgiEscapeChar c hmem
    · intro h
      obtain ⟨l, hl, hmem⟩ := List.mem_flatten.mp h
      obtain ⟨c, _, rfl⟩ := List.mem_map.mp hl
      exact gt_not_mem_cgiEscapeChar c hmem
  · intro s h
    exact List.mem_flatten.mpr
      ⟨cgiEscapeChar '\"', List.mem_map_of_mem cgiEscapeChar h, by decide⟩

/-- Witness for the C3 theorem: the quote in `x"y` passes through
`cgi.escape` unescaped. -/
theorem escaping_behavior_witness :
    '\"' ∈ "x\"y".data ∧ '\"' ∈ (cgiEscape "x\"y").data :=
  ⟨by decide, escaping_behavior.2.2.2.2.2.1 "x\"y" (by decide)⟩

/-- C4 counterexample: the claim says an item-level pubDate element is
emitted for every message, containing the build timestamp when the date
header is absent.  For a message without a date header the rendered item
contains no pubDate line at all — the build timestamp is used only for the
channel-level pubDate printed outside the item. -/
theorem item_pubdate_missing_date :
    (renderItem pdNone "http://base/"
        ⟨none, some "alice at example.org", some "Hello", some "<id@host>", false, "",
          "body text"⟩).filter isPubDateLine = []
      ∧ chanPubDateLine "Thu, 01 Jan 2026 00:00:00 -0000"
          ⟨none, some "alice at example.org", some "Hello", some "<id@host>", false, "",
            "body text"⟩
        = "<pubDate>Thu, 01 Jan 2026 00:00:00 -0000</pubDate>" := by
  decide

/-- C4 amended: an item-level pubDate is emitted iff the message's date
header is present and non-empty, in which case the item contains exactly
one pubDate line holding the escaped raw header text; when the header is
absent or empty the item contains no pubDate line (the build timestamp
reaches only the channel-level pubDate).  Either way the item-level field
is computed from the message alone, independent of the channel-level
choice. -/
theorem item_pubdate_iff (pd : String → Option ParsedDate) (url : String) (m : Mail) :
    (truthy m.date = true →
        (renderItem pd url m).filter isPubDateLine
          = ["<pubDate>" ++ cgiEscape (getS m.date) ++ "</pubDate>"])
      ∧ (truthy m.date = false →
        (renderItem pd url m).filter isPubDateLine = []) := by
  constructor
  · intro h
    rw [filter_isPubDateLine_renderItem, if_pos h]
  · intro h
    rw [filter_isPubDateLine_renderItem, if_neg (by rw [h]; exact Bool.false_ne_true)]

/-- Witness for the C4 theorem at a message carrying a date header. -/
theorem item_pubdate_iff_witness :
    truthy (some "Wed, 01 Apr 2020 10:00:00 +0000") = true
      ∧ (renderItem pdNone "http://base/"
          ⟨some "Wed, 01 Apr 2020 10:00:00 +0000", none, none, none, false, "",
            ""⟩).filter isPubDateLine
        = ["<pubDate>Wed, 01 Apr 2020 10:00:00 +0000</pubDate>"] :=
  ⟨by decide,
    (item_pubdate_iff pdNone "http://base/"
      ⟨some "Wed, 01 Apr 2020 10:00:00 +0000", none, none, none, false, "", ""⟩).1
      (by decide)⟩

/-- C1 counterexample: at exactly the claim's example input — subject
`[project 42] Fix bug`, parsed date April 2020, base `http://base/` — the
rendered item does NOT contain the claimed link
`<base>April-2020/000041.html`; the code formats the month segment with
`strftime("%Y-%B")`, i.e. year first, producing
`<base>2020-April/000041.html`. -/
theorem permalink_month_year_order :
    "<link>http://base/2020-April/000041.html</link>"
        ∈ renderItem pdApril2020 "http://base/"
            ⟨some "Wed, 1 Apr 2020 10:00:00 +0000", none, some "[project 42] Fix bug",
              none, false, "", ""⟩
      ∧ "<link>http://base/April-2020/000041.html</link>"
          ∉ renderItem pdApril2020 "http://base/"
              ⟨some "Wed, 1 Apr 2020 10:00:00 +0000", none, some "[project 42] Fix bug",
                none, false, "", ""⟩ := by
  decide

/-- C1 amended: when the decoded subject matches `[<tag> <N>]...` and the
date header parses, the item contains exactly one link, equal to the
archive base URL followed by the four-digit year, a hyphen, the full month
name, then `/`, N−1 zero-padded to 6 digits, and `.html`; when the subject
has no bracketed numeric tag, or the date header is absent or unparseable,
the item contains no link line and no error occurs.  (At the claim's
example, the month segment is `2020-April` and the counter `000041`.) -/
theorem permalink_reconstruction (pd : String → Option ParsedDate)
    (base : String) (m : Mail) :
    (∀ (d : ParsedDate) (n : Nat), truthy m.date = true →
        pd (getS m.date) = some d → truthy m.subject = true →
        matchTag (cgiEscape (getS m.subject)).data = some n →
        (renderItem pd base m).filter isLinkLine
          = ["<link>" ++ base ++ strftimeYB d ++ "/" ++ format06 ((n : Int) - 1)
              ++ ".html</link>"])
      ∧ (matchTag (cgiEscape (getS m.subject)).data = none →
          (renderItem pd base m).filter isLinkLine = [])
      ∧ (truthy m.date = false → (renderItem pd base m).filter isLinkLine = [])
      ∧ (pd (getS m.date) = none → (renderItem pd base m).filter isLinkLine = [])
      ∧ strftimeYB ⟨2020, 4⟩ = "2020-April"
      ∧ format06 ((42 : Int) - 1) = "000041" := by
  refine ⟨?_, ?_, ?_, ?_, by decide, by decide⟩
  · intro d n hd hpd hs hmt
    rw [filter_isLinkLine_renderItem, if_pos hs, hd]
    simp [hpd, hmt, itemLinkLine]
  · intro hmt
    rw [filter_isLinkLine_renderItem]
    cases hs : truthy m.subject <;>
      cases hp : (if truthy m.date then pd (getS m.date) else none) <;>
        simp [hmt, hp]
  · intro hd
    rw [filter_isLinkLine_renderItem, hd]
    cases hs : truthy m.subject <;>
      cases hmt : matchTag (cgiEscape (getS m.subject)).data <;> simp [hmt]
  · intro hpd
    rw [filter_isLinkLine_renderItem]
    cases hs : truthy m.subject <;> cases hd : truthy m.date <;>
      cases hmt : matchTag (cgiEscape (getS m.subject)).data <;> simp [hpd, hd, hmt]

/-- Witness for the C1 theorem at the claim's example message. -/
theorem permalink_reconstruction_witness :
    truthy (some "Wed, 1 Apr 2020 10:00:00 +0000") = true
      ∧ pdApril2020 "Wed, 1 Apr 2020 10:00:00 +0000" = some ⟨2020, 4⟩
      ∧ truthy (some "[project 42] Fix bug") = true
      ∧ matchTag (cgiEscape "[project 42] Fix bug").data = some 42
      ∧ (renderItem pdApril2020 "http://base/"
          ⟨some "Wed, 1 Apr 2020 10:00:00 +0000", none, some "[project 42] Fix bug",
            none, false, "", ""⟩).filter isLinkLine
        = ["<link>http://base/2020-April/000041.html</link>"] :=
  ⟨by decide, rfl, by decide, by decide,
    (permalink_reconstruction pdApril2020 "http://base/"
        ⟨some "Wed, 1 Apr 2020 10:00:00 +0000", none, some "[project 42] Fix bug",
          none, false, "", ""⟩).1 ⟨2020, 4⟩ 42 (by decide) rfl (by decide) (by decide)⟩

theorem selectAcc_eq_core {α : Type} (count : Int) (months : List (List α)) :
    ∀ acc : List α,
      selectAcc count acc months = acc ++ selectCore months (count - acc.length) := by
  induction months with
  | nil => intro acc; simp [selectAcc, selectCore]
  | cons month rest ih =>
    intro acc
    simp only [selectAcc, selectCore]
    have hcond : (count ≤ ((acc ++ month.reverse).length : Int))
        ↔ (count - acc.length ≤ (month.length : Int)) := by
      simp only [List.length_append, List.length_reverse]
      push_cast
      omega
    by_cases h : count - (acc.length : Int) ≤ (month.length : Int)
    · rw [if_pos (hcond.mpr h), if_pos h]
    · rw [if_neg (fun hc => h (hcond.mp hc)), if_neg h, ih (acc ++ month.reverse),
        List.append_assoc]
      have harg : count - ((acc ++ month.reverse).length : Int)
          = count - acc.length - month.length := by
        simp only [List.length_append, List.length_reverse]
        push_cast
        ring
      rw [harg]

theorem select_eq_core {α : Type} (months : List (List α)) (count : Int) :
    select months count
      = (if count < ((selectCore months count).length : Int) then
           pySliceTo (selectCore months count) count
         else selectCore months count) := by
  have h := selectAcc_eq_core count months []
  simp only [List.length_nil, Nat.cast_zero, sub_zero, List.nil_append] at h
  simp only [select, h]

theorem selectCore_exists_suffix {α : Type} (months : List (List α)) :
    ∀ count : Int, ∃ t, selectCore months count ++ t = (months.map List.reverse).flatten := by
  induction months with
  | nil => intro count; exact ⟨[], rfl⟩
  | cons month rest ih =>
    intro count
    simp only [selectCore, List.map_cons, List.flatten_cons]
    by_cases h : count ≤ (month.length : Int)
    · rw [if_pos h]
      exact ⟨(rest.map List.reverse).flatten, rfl⟩
    · rw [if_neg h]
      obtain ⟨t, ht⟩ := ih (count - month.length)
      exact ⟨t, by rw [List.append_assoc, ht]⟩

theorem totalMessages_cons {α : Type} (m : List α) (rest : List (List α)) :
    totalMessages (m :: rest) = m.length + totalMessages rest := by
  simp [totalMessages]

theorem flatten_reverse_length {α : Type} (months : List (List α)) :
    ((months.map List.reverse).flatten).length = totalMessages months := by
  rw [List.length_flatten, List.map_map, totalMessages]
  congr 1
  exact List.map_congr_left fun l _ => List.length_reverse l

theorem selectCore_length_le {α : Type} (months : List (List α)) (count : Int) :
    (selectCore months count).length ≤ totalMessages months := by
  obtain ⟨t, ht⟩ := selectCore_exists_suffix months count
  have := congrArg List.length ht
  rw [List.length_append, flatten_reverse_length] at this
  omega

theorem selectCore_length_ge {α : Type} (months : List (List α)) (count : Int)
    (h : count ≤ (totalMessages months : Int)) :
    count ≤ ((selectCore months count).length : Int) := by
  induction months generalizing count with
  | nil => simpa [selectCore, totalMessages] using h
  | cons month rest ih =>
    simp only [selectCore]
    by_cases hc : count ≤ (month.length : Int)
    · rw [if_pos hc]
      simpa using hc
    · rw [if_neg hc]
      rw [totalMessages_cons] at h
      have h2 : count - month.length ≤ (totalMessages rest : Int) := by
        push_cast at h
        omega
      have h3 := ih (count - month.length) h2
      simp only [List.length_append, List.length_reverse]
      push_cast
      omega

theorem selectCore_eq_flatten {α : Type} (months : List (List α)) (count : Int)
    (h : (totalMessages months : Int) < count) :
    selectCore months count = (months.map List.reverse).flatten := by
  induction months generalizing count with
  | nil => simp [selectCore]
  | cons month rest ih =>
    simp only [selectCore, List.map_cons, List.flatten_cons]
    rw [totalMessages_cons] at h
    have hc : ¬ (count ≤ (month.length : Int)) := by
      push_cast at h
      omega
    rw [if_neg hc, ih (count - month.length) (by push_cast at h ⊢; omega)]

theorem select_eq_take {α : Type} (months : List (List α)) (count : Int)
    (h : 0 ≤ count) :
    select months count = ((months.map List.reverse).flatten).take count.toNat := by
  rw [select_eq_core]
  obtain ⟨t, ht⟩ := selectCore_exists_suffix months count
  by_cases hlt : count < ((selectCore months count).length : Int)
  · rw [if_pos hlt]
    unfold pySliceTo
    rw [if_pos h, ← ht, List.take_append_eq_append_take]
    have h0 : count.toNat - (selectCore months count).length = 0 := by omega
    rw [h0, List.take_zero, List.append_nil]
  · rw [if_neg hlt]
    by_cases htot : (totalMessages months : Int) < count
    · rw [selectCore_eq_flatten months count htot, List.take_of_length_le]
      rw [flatten_reverse_length]
      omega
    · have hge := selectCore_length_ge months count (le_of_not_lt htot)
      have hlen : count.toNat = (selectCore months count).length := by omega
      rw [← ht, List.take_append_eq_append_take, hlen, List.take_length]
      simp

theorem select_length_min {α : Type} (months : List (List α)) (count : Int)
    (h : 0 ≤ count) :
    (select months count).length = min count.toNat (totalMessages months) := by
  rw [select_eq_take months count h, List.length_take, flatten_reverse_length]

/-- C2 counterexample: the claim says every `targetCount ≤ 0`, negative
values included, yields an empty selection.  With a single month of three
messages and `targetCount = -1`, the loop breaks after the first month
(`0 ≥ -1` would already hold, and `3 ≥ -1` does) and the Python trim
`mails[:-1]` drops only the last element, returning two messages. -/
theorem select_negative_count_nonempty :
    select [[1, 2, 3]] (-1 : Int) = [3, 2]
      ∧ select [[1, 2, 3]] (-1 : Int) ≠ ([] : List Nat) := by
  decide

/-- C2 amended: for every `targetCount ≥ 0` the selection has length
`min(targetCount, totalAvailableMessages)` and never exceeds `targetCount`,
and `targetCount = 0` yields an empty result; but a negative `targetCount`
yields the first month's reversed messages with the last `|targetCount|`
entries dropped (Python negative slicing), which need not be empty. -/
theorem select_count_behavior :
    (∀ (α : Type) (months : List (List α)) (count : Int), 0 ≤ count →
        (select months count).length = min count.toNat (totalMessages months))
      ∧ (∀ (α : Type) (months : List (List α)), select months 0 = [])
      ∧ (∀ (α : Type) (m : List α) (rest : List (List α)) (count : Int), count < 0 →
        select (m :: rest) count = m.reverse.take ((m.length : Int) + count).toNat) := by
  refine ⟨fun α months count h => select_length_min months count h, ?_, ?_⟩
  · intro α months
    have h := select_length_min months 0 le_rfl
    simp only [Int.toNat_zero, Nat.zero_min] at h
    exact List.length_eq_zero.mp h
  · intro α m rest count hneg
    have hstop : count ≤ ((([] : List α) ++ m.reverse).length : Int) := by
      simp only [List.nil_append, List.length_reverse]
      omega
    have hsel : selectAcc count ([] : List α) (m :: rest) = m.reverse := by
      simp only [selectAcc]
      rw [if_pos hstop]
      simp
    have htrim : count < ((m.reverse.length : Nat) : Int) := by
      simp only [List.length_reverse]
      omega
    simp only [select, hsel]
    rw [if_pos htrim]
    unfold pySliceTo
    rw [if_neg (by omega)]
    simp [List.length_reverse]

/-- Witness for the C2 theorem. -/
theorem select_count_behavior_witness :
    (0 : Int) ≤ 1
      ∧ (select [[1, 2], [3]] (1 : Int)).length
          = min (1 : Int).toNat (totalMessages [[1, 2], [3]]) :=
  ⟨by decide, select_count_behavior.1 Nat [[1, 2], [3]] 1 (by decide)⟩

/-- C5: the selection walks the month archives exactly in `ArchiveIndex`
order, reverses each month before appending, and truncates — so for any
non-negative count the result is the `count`-prefix of the concatenation of
the reversed months (descending archive-traversal order, with parsed dates
playing no role).  The loop opens no further month once the accumulated
count reaches the target: with months of sizes 3, 2 (and even an extra
trailing month) and `targetCount = 4`, the result is the first month's
three messages reversed followed by the second month's last message, and
exactly two months are fetched. -/
theorem select_traversal_order :
    (∀ (α : Type) (months : List (List α)) (count : Int), 0 ≤ count →
        select months count = ((months.map List.reverse).flatten).take count.toNat)
      ∧ select [[1, 2, 3], [4, 5]] (4 : Int) = [3, 2, 1, 5]
      ∧ monthsLoaded (4 : Int) 0 [([1, 2, 3] : List Nat), [4, 5]] = 2
      ∧ monthsLoaded (4 : Int) 0 [([1, 2, 3] : List Nat), [4, 5], [6]] = 2
      ∧ (∀ (α : Type) (m : List α) (rest : List (List α)) (count : Int),
          count ≤ (m.length : Int) → monthsLoaded count 0 (m :: rest) = 1) := by
  refine ⟨fun α months count h => select_eq_take months count h,
    by decide, by decide, by decide, ?_⟩
  intro α m rest count h
  simp only [monthsLoaded]
  rw [if_pos (by push_cast; omega)]

/-- Witness for the C5 theorem at the claim's two-month example. -/
theorem select_traversal_order_witness :
    (0 : Int) ≤ 4
      ∧ select [[1, 2, 3], [4, 5]] (4 : Int)
          = ((([[1, 2, 3], [4, 5]] : List (List Nat)).map List.reverse).flatten).take
              (4 : Int).toNat :=
  ⟨by decide, select_traversal_order.1 Nat [[1, 2, 3], [4, 5]] 4 (by decide)⟩

end MailmanRss
